import Mathlib

/-!
Shallow embedding of the `lectron` simulation core (`blocks.py`, `board.py`).

Python floats are modelled as rationals (`ℚ`); the connection matrix
(a numpy 2-D integer array) as a list of rows `List (List ℤ)`; the
`labelled_blocks` dict as an association list `List (String × GeneBlock)`;
Python exceptions as `Except`, with the error value carrying the state as it
stands when the exception propagates (so partial mutation before a raise is
observable).
-/

/-- `MAX_VOLTAGE = 9.0`, maximum voltage at the condensator in volts. -/
def MAX_VOLTAGE : ℚ := 9

/-- `DELTA_T = 1e-3`, time step in seconds. -/
def DELTA_T : ℚ := 1 / 1000

/-- The `GeneBlock` class: configuration fields plus the mutable
`_voltage` / `_is_active` state (named `voltage` / `active` here). -/
structure GeneBlock where
  hysteresis : ℚ
  threshhold : ℚ
  time_constant : ℚ
  label : String
  voltage : ℚ
  active : Bool
deriving DecidableEq, Repr, Inhabited

namespace GeneBlock

/-- `GeneBlock.__init__` (class defaults are
`hysteresis=0.8, threshhold=2, time_constant=4.0, label=""`);
`_voltage = 0.0`, `_is_active = False`. -/
def init (hysteresis threshhold time_constant : ℚ) (label : String) : GeneBlock :=
  { hysteresis := hysteresis, threshhold := threshhold,
    time_constant := time_constant, label := label,
    voltage := 0, active := false }

/-- `get_voltage`. -/
def get_voltage (b : GeneBlock) : ℚ := b.voltage

/-- `get_label`. -/
def get_label (b : GeneBlock) : String := b.label

/-- `is_active`: the hysteretic comparator.  Returns the (possibly
latch-mutated) block together with the Python return value (1 or 0). -/
def is_active (b : GeneBlock) : GeneBlock × ℤ :=
  if b.active = true ∧ b.voltage > MAX_VOLTAGE / 2 - b.hysteresis * MAX_VOLTAGE / 2 then
    (b, 1)
  else if b.active = false ∧ b.voltage > MAX_VOLTAGE / 2 + b.hysteresis * MAX_VOLTAGE / 2 then
    ({ b with active := true }, 1)
  else
    ({ b with active := false }, 0)

/-- `turn_on`: set the voltage to `MAX_VOLTAGE`. -/
def turn_on (b : GeneBlock) : GeneBlock := { b with voltage := MAX_VOLTAGE }

/-- `turn_off`: set the voltage to 0. -/
def turn_off (b : GeneBlock) : GeneBlock := { b with voltage := 0 }

/-- `_charge`: `voltage += (MAX_VOLTAGE - voltage) / time_constant * DELTA_T`. -/
def charge (b : GeneBlock) : GeneBlock :=
  { b with voltage := b.voltage + (MAX_VOLTAGE - b.voltage) / b.time_constant * DELTA_T }

/-- `_discharge`: `voltage -= voltage / time_constant * DELTA_T`. -/
def discharge (b : GeneBlock) : GeneBlock :=
  { b with voltage := b.voltage - b.voltage / b.time_constant * DELTA_T }

/-- `update(ingoing_connections)`: charge when the ingoing signal meets the
threshhold, otherwise discharge. -/
def update (b : GeneBlock) (ingoing_connections : ℚ) : GeneBlock :=
  if ingoing_connections ≥ b.threshhold then b.charge else b.discharge

end GeneBlock

/-- First index of `b` in `l` under structural equality, mirroring Python's
`list.index` (`None` when absent, where Python raises `ValueError`). -/
def indexOfQ : List GeneBlock → GeneBlock → Option ℕ
  | [], _ => none
  | x :: xs, b => if x = b then some 0 else (indexOfQ xs b).map (· + 1)

/-- Dict lookup on the association list modelling `_labelled_blocks`. -/
def dictGet? (m : List (String × GeneBlock)) (k : String) : Option GeneBlock :=
  (m.find? (fun p => p.1 = k)).map Prod.snd

/-- Dict insertion (`m[k] = v`): overwrite the existing binding, else append. -/
def dictInsert (m : List (String × GeneBlock)) (k : String) (v : GeneBlock) :
    List (String × GeneBlock) :=
  if (m.find? (fun p => p.1 = k)).isSome then
    m.map (fun p => if p.1 = k then (k, v) else p)
  else m ++ [(k, v)]

/-- Dict deletion (`del m[k]`). -/
def dictErase (m : List (String × GeneBlock)) (k : String) :
    List (String × GeneBlock) :=
  m.filter (fun p => p.1 ≠ k)

/-- Grow an `n × n` matrix to `(n+1) × (n+1)`, zero-filling the new row and
column: `new_connections[:-1, :-1] = connections` in `add_block`. -/
def matGrow (c : List (List ℤ)) : List (List ℤ) :=
  c.map (fun row => row ++ [0]) ++ [List.replicate (c.length + 1) 0]

/-- Delete row `idx` and column `idx`: the two `np.delete` calls of
`remove_block`. -/
def matShrink (c : List (List ℤ)) (idx : ℕ) : List (List ℤ) :=
  (c.eraseIdx idx).map (fun row => row.eraseIdx idx)

/-- `connections[target_idx, source_idx] = value`. -/
def matSet (c : List (List ℤ)) (i j : ℕ) (v : ℤ) : List (List ℤ) :=
  c.set i ((c.getD i []).set j v)

/-- Dot product of a matrix row with the state vector. -/
def dotZ (r s : List ℤ) : ℤ := (List.zipWith (· * ·) r s).sum

/-- `np.matmul(connections, block_states)`. -/
def matVec (c : List (List ℤ)) (s : List ℤ) : List ℤ := c.map (fun r => dotZ r s)

/-- The `Board` class: `_blocks`, `_labelled_blocks`, `connections`. -/
structure Board where
  blocks : List GeneBlock
  labelled_blocks : List (String × GeneBlock)
  connections : List (List ℤ)
deriving DecidableEq, Repr, Inhabited

/-- A block argument that is either a block object or a label string. -/
inductive BlockOrLabel where
  | block (b : GeneBlock)
  | label (l : String)

namespace Board

/-- `Board.__init__`: no blocks, no labels, a 0 × 0 connection matrix. -/
def init : Board := { blocks := [], labelled_blocks := [], connections := [] }

/-- `_get_block_by_label`: dict lookup, raising a `KeyError` whose message
names the label when it is absent. -/
def get_block_by_label (bd : Board) (l : String) : Except String GeneBlock :=
  match dictGet? bd.labelled_blocks l with
  | some block => .ok block
  | none => .error ("Could not locate block with label " ++ l ++ ".")

/-- `get_blocks` (a copy of the list). -/
def get_blocks (bd : Board) : List GeneBlock := bd.blocks

/-- `get_block_states`: `[b.is_active() for b in self._blocks]` — mutates
every block's latch, so the updated board is returned with the states. -/
def get_block_states (bd : Board) : Board × List ℤ :=
  let pairs := bd.blocks.map GeneBlock.is_active
  ({ bd with blocks := pairs.map Prod.fst }, pairs.map Prod.snd)

/-- `get_block_voltages`. -/
def get_block_voltages (bd : Board) : List ℚ :=
  bd.blocks.map GeneBlock.get_voltage

/-- `add_block`: grow the matrix, append the block, register a non-empty
label. -/
def add_block (bd : Board) (block : GeneBlock) : Board :=
  { blocks := bd.blocks ++ [block],
    labelled_blocks :=
      if block.get_label ≠ "" then
        dictInsert bd.labelled_blocks block.get_label block
      else bd.labelled_blocks,
    connections := matGrow bd.connections }

/-- `add_blocks`: sequential `add_block`. -/
def add_blocks (bd : Board) (blocks : List GeneBlock) : Board :=
  blocks.foldl add_block bd

/-- Shared tail of `remove_block` once the block object is in hand:
`self._blocks.index(block)`, `del self._blocks[idx]`, double `np.delete`.
An absent block raises `ValueError` with the board as it stands. -/
def removeResolved (bd : Board) (block : GeneBlock) : Except (String × Board) Board :=
  match indexOfQ bd.blocks block with
  | none => .error ("block is not in list", bd)
  | some block_idx =>
      .ok { bd with blocks := bd.blocks.eraseIdx block_idx,
                    connections := matShrink bd.connections block_idx }

/-- `remove_block(block_or_label)`: a label is resolved (raising `KeyError`
when unknown) and its dict entry deleted; a block object is used as is. -/
def remove_block (bd : Board) (x : BlockOrLabel) : Except (String × Board) Board :=
  match x with
  | .label l =>
      match bd.get_block_by_label l with
      | .error e => .error (e, bd)
      | .ok block =>
          removeResolved
            { bd with labelled_blocks := dictErase bd.labelled_blocks l } block
  | .block b => removeResolved bd b

/-- Resolve one endpoint of `add_connection` (label or block object). -/
def resolveEndpoint (bd : Board) (x : BlockOrLabel) : Except String GeneBlock :=
  match x with
  | .label l => bd.get_block_by_label l
  | .block b => .ok b

/-- `add_connection(source, target, value)`: resolve both endpoints, find
both indices, then `connections[target_idx, source_idx] = value`. -/
def add_connection (bd : Board) (source target : BlockOrLabel) (value : ℤ) :
    Except (String × Board) Board :=
  match resolveEndpoint bd source with
  | .error e => .error (e, bd)
  | .ok source_block =>
  match resolveEndpoint bd target with
  | .error e => .error (e, bd)
  | .ok target_block =>
  match indexOfQ bd.blocks source_block with
  | none => .error ("block is not in list", bd)
  | some source_idx =>
  match indexOfQ bd.blocks target_block with
  | none => .error ("block is not in list", bd)
  | some target_idx =>
      .ok { bd with connections := matSet bd.connections target_idx source_idx value }

/-- `remove_connection`: alias for `add_connection(source, target, 0)`. -/
def remove_connection (bd : Board) (source target : BlockOrLabel) :
    Except (String × Board) Board :=
  bd.add_connection source target 0

/-- `set_connections`. -/
def set_connections (bd : Board) (connections : List (List ℤ)) : Board :=
  { bd with connections := connections }

/-- `advance`: sample every block's activation, multiply by the connection
matrix, then update every block with its ingoing signal. -/
def advance (bd : Board) : Board :=
  let pairs := bd.blocks.map GeneBlock.is_active
  let block_states := pairs.map Prod.snd
  let ingoing_connections := matVec bd.connections block_states
  let blocks := List.zipWith (fun b s => b.update (s : ℚ)) (pairs.map Prod.fst) ingoing_connections
  { bd with blocks := blocks }

end Board

/-- `n` repeated `update` calls with a constant ingoing signal. -/
def updateIter (b : GeneBlock) (s : ℚ) : ℕ → GeneBlock
  | 0 => b
  | n + 1 => (updateIter b s n).update s

/-- `n + 1` repeated `is_active()` calls with no intervening mutation:
`iterActive b n` is the block state and return value after the `n+1`-st call. -/
def iterActive (b : GeneBlock) : ℕ → GeneBlock × ℤ
  | 0 => b.is_active
  | n + 1 => (iterActive b n).1.is_active

/-- One structural call against a board: `add_block` or `remove_block`. -/
inductive BoardOp where
  | add (b : GeneBlock)
  | remove (x : BlockOrLabel)

/-- Run a sequence of structural calls, stopping at the first raised
exception (a raise aborts the Python call sequence). -/
def runOps (bd : Board) : List BoardOp → Option Board
  | [] => some bd
  | op :: ops =>
      match op with
      | .add b => runOps (bd.add_block b) ops
      | .remove x =>
          match bd.remove_block x with
          | .error _ => none
          | .ok bd' => runOps bd' ops

/-- `connections.shape == (len(blocks), len(blocks))`. -/
def isSquare (bd : Board) : Prop :=
  bd.connections.length = bd.blocks.length ∧
    ∀ r ∈ bd.connections, r.length = bd.blocks.length

instance (bd : Board) : Decidable (isSquare bd) := by
  unfold isSquare; infer_instance

/-- Matrix entry at row `i`, column `j` (0 outside the matrix). -/
def entry (c : List (List ℤ)) (i j : ℕ) : ℤ := (c.getD i []).getD j 0

/-- Which block a `remove_block` argument denotes on a given board. -/
def resolvesTo (bd : Board) (x : BlockOrLabel) (b : GeneBlock) : Prop :=
  match x with
  | .block b' => b' = b
  | .label l => dictGet? bd.labelled_blocks l = some b

/-- A default-configured block labelled "A". -/
def blockA : GeneBlock := GeneBlock.init (4/5) 2 4 "A"

/-- A default-configured block labelled "B". -/
def blockB : GeneBlock := GeneBlock.init (4/5) 2 4 "B"

/-- A block latched active at full voltage. -/
def blockOn : GeneBlock :=
  { hysteresis := 4/5, threshhold := 1, time_constant := 4, label := "X",
    voltage := 9, active := true }

/-- A block with a negative hysteresis, mid voltage, latched active. -/
def blockNeg : GeneBlock :=
  { hysteresis := -1, threshhold := 2, time_constant := 4, label := "",
    voltage := 9/2, active := true }

/-- A block whose time constant is smaller than the time step. -/
def blockFast : GeneBlock :=
  { hysteresis := 4/5, threshhold := 2, time_constant := 1/2000, label := "",
    voltage := 0, active := false }

/-- A one-block board holding `blockOn` with a self-connection. -/
def boardOn : Board :=
  { blocks := [blockOn], labelled_blocks := [("X", blockOn)],
    connections := [[1]] }

/-- A one-block board holding the labelled block `blockA`. -/
def boardA : Board := Board.init.add_block blockA

/-! ## Block-level lemmas and theorems -/

lemma is_active_snd (b : GeneBlock) :
    b.is_active.2 = if b.is_active.1.active = true then 1 else 0 := by
  unfold GeneBlock.is_active
  split_ifs with h1 h2 <;> simp_all

lemma is_active_stable (b : GeneBlock) (h : 0 ≤ b.hysteresis) :
    b.is_active.1.is_active = b.is_active := by
  have hband : 0 ≤ b.hysteresis * MAX_VOLTAGE / 2 :=
    div_nonneg (mul_nonneg h (by norm_num [MAX_VOLTAGE])) (by norm_num)
  by_cases hb : b.active = true
  · by_cases hlo : b.voltage > MAX_VOLTAGE / 2 - b.hysteresis * MAX_VOLTAGE / 2
    · have e : b.is_active = (b, 1) := by
        unfold GeneBlock.is_active
        rw [if_pos ⟨hb, hlo⟩]
      rw [e]; exact e
    · have e : b.is_active = ({ b with active := false }, 0) := by
        unfold GeneBlock.is_active
        rw [if_neg (fun hc => hlo hc.2),
          if_neg (fun hc => by rw [hb] at hc; exact absurd hc.1 (by simp))]
      rw [e]
      unfold GeneBlock.is_active
      rw [if_neg (fun hc => absurd hc.1 (by simp)), if_neg (fun hc => ?_)]
      · have hv : b.voltage ≤ MAX_VOLTAGE / 2 - b.hysteresis * MAX_VOLTAGE / 2 :=
          not_lt.mp hlo
        have hv2 : b.voltage > MAX_VOLTAGE / 2 + b.hysteresis * MAX_VOLTAGE / 2 := by
          simpa using hc.2
        linarith
  · have hb' : b.active = false := by simpa using hb
    by_cases hhi : b.voltage > MAX_VOLTAGE / 2 + b.hysteresis * MAX_VOLTAGE / 2
    · have e : b.is_active = ({ b with active := true }, 1) := by
        unfold GeneBlock.is_active
        rw [if_neg (fun hc => hb hc.1), if_pos ⟨hb', hhi⟩]
      rw [e]
      unfold GeneBlock.is_active
      rw [if_pos ⟨by simp, by
        simpa using (by linarith :
          b.voltage > MAX_VOLTAGE / 2 - b.hysteresis * MAX_VOLTAGE / 2)⟩]
    · have e : b.is_active = ({ b with active := false }, 0) := by
        unfold GeneBlock.is_active
        rw [if_neg (fun hc => hb hc.1), if_neg (fun hc => hhi hc.2)]
      rw [e]
      unfold GeneBlock.is_active
      rw [if_neg (fun hc => absurd hc.1 (by simp)),
        if_neg (fun hc => hhi (by simpa using hc.2))]

/-- C3: `is_active` is the hysteretic comparator with `mid = MAX_VOLTAGE/2`
and `band = hysteresis * mid`: latched active above `mid - band` it stays
active and returns 1; latched inactive above `mid + band` it latches active
and returns 1; otherwise it latches inactive and returns 0; with
`hysteresis = 0` it is a pure comparator at `mid`. -/
theorem is_active_schmitt (b : GeneBlock) :
    (b.active = true → b.voltage > MAX_VOLTAGE / 2 - b.hysteresis * (MAX_VOLTAGE / 2) →
      b.is_active = (b, 1)) ∧
    (b.active = false → b.voltage > MAX_VOLTAGE / 2 + b.hysteresis * (MAX_VOLTAGE / 2) →
      b.is_active = ({ b with active := true }, 1)) ∧
    (¬ (b.active = true ∧ b.voltage > MAX_VOLTAGE / 2 - b.hysteresis * (MAX_VOLTAGE / 2)) →
      ¬ (b.active = false ∧ b.voltage > MAX_VOLTAGE / 2 + b.hysteresis * (MAX_VOLTAGE / 2)) →
      b.is_active = ({ b with active := false }, 0)) ∧
    (b.hysteresis = 0 → (b.is_active.2 = 1 ↔ b.voltage > MAX_VOLTAGE / 2)) := by
  have hEq : b.hysteresis * MAX_VOLTAGE / 2 = b.hysteresis * (MAX_VOLTAGE / 2) :=
    mul_div_assoc b.hysteresis MAX_VOLTAGE 2
  refine ⟨fun ha hv => ?_, fun ha hv => ?_, fun hn1 hn2 => ?_, fun h0 => ?_⟩
  · unfold GeneBlock.is_active
    rw [hEq, if_pos ⟨ha, hv⟩]
  · unfold GeneBlock.is_active
    rw [hEq, if_neg (by simp [ha]), if_pos ⟨ha, hv⟩]
  · unfold GeneBlock.is_active
    rw [hEq, if_neg hn1, if_neg hn2]
  · rcases hb : b.active <;>
      by_cases hv : b.voltage > MAX_VOLTAGE / 2 <;>
      simp [GeneBlock.is_active, h0, hb, hv]

/-- C3 witness: a fully charged active block stays active and returns 1. -/
theorem is_active_schmitt_witness : blockOn.is_active = (blockOn, 1) :=
  (is_active_schmitt blockOn).1 rfl (by norm_num [blockOn, MAX_VOLTAGE])

/-- C4 counterexample: a block with hysteresis -1 (the claim allows any
hysteresis), voltage 9/2 and an active latch returns 0 on the first
`is_active()` call but 1 on the second, flipping the latch both times. -/
theorem is_active_idem_cex :
    (iterActive blockNeg 0).2 = 0 ∧ (iterActive blockNeg 1).2 = 1 ∧
    (iterActive blockNeg 0).1.active = false ∧
    (iterActive blockNeg 1).1.active = true := by
  norm_num [iterActive, GeneBlock.is_active, blockNeg, MAX_VOLTAGE]

/-- C4 (amended with nonnegative hysteresis): for every block whose
hysteresis is nonnegative, `N` repeated `is_active()` calls with no
intervening mutation all return the value of the first call and leave the
latch exactly as the first call left it. -/
theorem is_active_idempotent (b : GeneBlock) (h : 0 ≤ b.hysteresis) (n : ℕ) :
    iterActive b n = b.is_active := by
  induction n with
  | zero => rfl
  | succ n ih => rw [iterActive, ih, is_active_stable b h]

/-- C4 witness: six `is_active()` calls on a default block agree with the
first call. -/
theorem is_active_idempotent_witness : iterActive blockA 5 = blockA.is_active :=
  is_active_idempotent blockA (by norm_num [blockA, GeneBlock.init]) 5

/-- C5: `update(s)` charges by `(MAX_VOLTAGE - voltage)/time_constant * DELTA_T`
when `s ≥ threshhold` and otherwise discharges by
`voltage/time_constant * DELTA_T`; it changes no other field, does not touch
the latch, and the simulation constants are `MAX_VOLTAGE = 9`,
`DELTA_T = 1/1000`. -/
theorem update_spec (b : GeneBlock) (s : ℚ) :
    (s ≥ b.threshhold → b.update s =
       { b with voltage := b.voltage + (MAX_VOLTAGE - b.voltage) / b.time_constant * DELTA_T }) ∧
    (¬ s ≥ b.threshhold → b.update s =
       { b with voltage := b.voltage - b.voltage / b.time_constant * DELTA_T }) ∧
    (b.update s).hysteresis = b.hysteresis ∧
    (b.update s).threshhold = b.threshhold ∧
    (b.update s).time_constant = b.time_constant ∧
    (b.update s).label = b.label ∧
    (b.update s).active = b.active ∧
    MAX_VOLTAGE = 9 ∧ DELTA_T = 1 / 1000 := by
  unfold GeneBlock.update GeneBlock.charge GeneBlock.discharge
  refine ⟨fun hs => by rw [if_pos hs], fun hs => by rw [if_neg hs],
    ?_, ?_, ?_, ?_, ?_, rfl, rfl⟩ <;> split_ifs <;> rfl

/-- C5 witness: updating the saturated block with signal 1 charges it. -/
theorem update_spec_witness : blockOn.update 1 =
    { blockOn with voltage :=
        blockOn.voltage + (MAX_VOLTAGE - blockOn.voltage) / blockOn.time_constant * DELTA_T } :=
  (update_spec blockOn 1).1 (by norm_num [blockOn])

/-- C9: for a block whose time constant is at least `DELTA_T`,
`0 ≤ voltage ≤ MAX_VOLTAGE` is preserved by both branches of `update`, and
`turn_on` / `turn_off` set exactly `MAX_VOLTAGE` / 0, inside the bounds. -/
theorem voltage_invariant (b : GeneBlock) (hτ : DELTA_T ≤ b.time_constant)
    (h0 : 0 ≤ b.voltage) (h1 : b.voltage ≤ MAX_VOLTAGE) :
    (∀ s : ℚ, 0 ≤ (b.update s).voltage ∧ (b.update s).voltage ≤ MAX_VOLTAGE) ∧
    (b.turn_on.voltage = MAX_VOLTAGE ∧ 0 ≤ b.turn_on.voltage ∧
      b.turn_on.voltage ≤ MAX_VOLTAGE) ∧
    (b.turn_off.voltage = 0 ∧ 0 ≤ b.turn_off.voltage ∧
      b.turn_off.voltage ≤ MAX_VOLTAGE) := by
  have hd : (0:ℚ) < DELTA_T := by norm_num [DELTA_T]
  have hτ0 : 0 < b.time_constant := lt_of_lt_of_le hd hτ
  have hq0 : 0 ≤ DELTA_T / b.time_constant := div_nonneg hd.le hτ0.le
  have hq1 : DELTA_T / b.time_constant ≤ 1 := (div_le_one hτ0).mpr hτ
  refine ⟨fun s => ?_,
    ⟨rfl, by norm_num [GeneBlock.turn_on, MAX_VOLTAGE],
      by norm_num [GeneBlock.turn_on]⟩,
    ⟨rfl, by norm_num [GeneBlock.turn_off],
      by norm_num [GeneBlock.turn_off, MAX_VOLTAGE]⟩⟩
  unfold GeneBlock.update GeneBlock.charge GeneBlock.discharge
  split_ifs
  · have hc0 := mul_nonneg (sub_nonneg.mpr h1) hq0
    have hc1 := mul_le_of_le_one_right (sub_nonneg.mpr h1) hq1
    constructor
    · show 0 ≤ b.voltage + (MAX_VOLTAGE - b.voltage) / b.time_constant * DELTA_T
      rw [div_mul_eq_mul_div, mul_div_assoc]
      linarith
    · show b.voltage + (MAX_VOLTAGE - b.voltage) / b.time_constant * DELTA_T ≤ MAX_VOLTAGE
      rw [div_mul_eq_mul_div, mul_div_assoc]
      linarith
  · have hc0 := mul_nonneg h0 hq0
    have hc1 := mul_le_of_le_one_right h0 hq1
    constructor
    · show 0 ≤ b.voltage - b.voltage / b.time_constant * DELTA_T
      rw [div_mul_eq_mul_div, mul_div_assoc]
      linarith
    · show b.voltage - b.voltage / b.time_constant * DELTA_T ≤ MAX_VOLTAGE
      rw [div_mul_eq_mul_div, mul_div_assoc]
      linarith

/-- C9 witness: the bounds hold after one update of a fresh default block. -/
theorem voltage_invariant_witness :
    0 ≤ (blockA.update 2).voltage ∧ (blockA.update 2).voltage ≤ MAX_VOLTAGE :=
  (voltage_invariant blockA (by norm_num [blockA, GeneBlock.init, DELTA_T])
    (by norm_num [blockA, GeneBlock.init])
    (by norm_num [blockA, GeneBlock.init, MAX_VOLTAGE])).1 2

/-- C10: the value `is_active()` returns always equals the latch state it
leaves behind, and `get_block_states` reports exactly the post-call latch of
every block on the board. -/
theorem is_active_returns_latch (b : GeneBlock) :
    (b.is_active.2 = 1 ↔ b.is_active.1.active = true) ∧
    (b.is_active.2 = 0 ↔ b.is_active.1.active = false) ∧
    ∀ bd : Board, (bd.get_block_states).2 =
      (bd.get_block_states).1.blocks.map
        (fun blk => if blk.active = true then (1 : ℤ) else 0) := by
  refine ⟨?_, ?_, fun bd => ?_⟩
  · rw [is_active_snd]; split_ifs with h <;> simp_all
  · rw [is_active_snd]; split_ifs with h <;> simp_all
  · simp only [Board.get_block_states, List.map_map]
    exact List.map_congr_left fun x _ => is_active_snd x

lemma updateIter_fields (b : GeneBlock) (s : ℚ) (n : ℕ) :
    (updateIter b s n).threshhold = b.threshhold ∧
    (updateIter b s n).time_constant = b.time_constant := by
  induction n with
  | zero => exact ⟨rfl, rfl⟩
  | succ n ih =>
    unfold updateIter GeneBlock.update GeneBlock.charge GeneBlock.discharge
    split_ifs <;> exact ⟨ih.1, ih.2⟩

lemma charge_closed (b : GeneBlock) (s : ℚ) (hs : s ≥ b.threshhold) (n : ℕ) :
    MAX_VOLTAGE - (updateIter b s n).voltage =
      (MAX_VOLTAGE - b.voltage) * (1 - DELTA_T / b.time_constant) ^ n := by
  induction n with
  | zero => simp [updateIter]
  | succ n ih =>
    have ht := (updateIter_fields b s n).1
    have hτ := (updateIter_fields b s n).2
    have step : updateIter b s (n+1) = (updateIter b s n).charge := by
      show (updateIter b s n).update s = (updateIter b s n).charge
      unfold GeneBlock.update
      rw [if_pos (by rw [ht]; exact hs)]
    rw [step]
    unfold GeneBlock.charge
    dsimp only
    rw [hτ, pow_succ]
    linear_combination ((1 : ℚ) - DELTA_T / b.time_constant) * ih

lemma discharge_closed (b : GeneBlock) (s : ℚ) (hs : ¬ s ≥ b.threshhold) (n : ℕ) :
    (updateIter b s n).voltage =
      b.voltage * (1 - DELTA_T / b.time_constant) ^ n := by
  induction n with
  | zero => simp [updateIter]
  | succ n ih =>
    have ht := (updateIter_fields b s n).1
    have hτ := (updateIter_fields b s n).2
    have step : updateIter b s (n+1) = (updateIter b s n).discharge := by
      show (updateIter b s n).update s = (updateIter b s n).discharge
      unfold GeneBlock.update
      rw [if_neg (by rw [ht]; exact hs)]
    rw [step]
    unfold GeneBlock.discharge
    dsimp only
    rw [hτ, pow_succ]
    linear_combination ((1 : ℚ) - DELTA_T / b.time_constant) * ih

/-- C8 counterexample: a block with time constant 1/2000 (< DELTA_T) at
voltage 0 exceeds MAX_VOLTAGE after a single charging update, so the claim
fails as stated for arbitrary blocks. -/
theorem charge_monotone_cex :
    blockFast.voltage = 0 ∧ (2:ℚ) ≥ blockFast.threshhold ∧
    MAX_VOLTAGE < (updateIter blockFast 2 1).voltage := by
  refine ⟨rfl, by norm_num [blockFast], ?_⟩
  show MAX_VOLTAGE < (blockFast.update 2).voltage
  norm_num [GeneBlock.update, GeneBlock.charge, GeneBlock.discharge, blockFast,
    MAX_VOLTAGE, DELTA_T]

/-- C8 (amended: blocks whose time constant exceeds DELTA_T): from voltage 0
under a constant signal at or above the threshhold the voltage strictly
increases, stays below MAX_VOLTAGE, and comes within any positive ε of
MAX_VOLTAGE; dually from MAX_VOLTAGE under a signal below the threshhold the
voltage strictly decreases, stays positive, and comes within any positive ε
of 0. -/
theorem charge_discharge_monotone (b : GeneBlock) (s : ℚ)
    (hτ : DELTA_T < b.time_constant) :
    (b.voltage = 0 → s ≥ b.threshhold →
      (∀ n, (updateIter b s n).voltage < (updateIter b s (n+1)).voltage ∧
            (updateIter b s n).voltage < MAX_VOLTAGE) ∧
      (∀ ε : ℚ, 0 < ε → ∃ N, MAX_VOLTAGE - ε < (updateIter b s N).voltage)) ∧
    (b.voltage = MAX_VOLTAGE → ¬ s ≥ b.threshhold →
      (∀ n, (updateIter b s (n+1)).voltage < (updateIter b s n).voltage ∧
            0 < (updateIter b s n).voltage) ∧
      (∀ ε : ℚ, 0 < ε → ∃ N, (updateIter b s N).voltage < ε)) := by
  have hd : (0:ℚ) < DELTA_T := by norm_num [DELTA_T]
  have hτ0 : 0 < b.time_constant := hd.trans hτ
  have hq1 : DELTA_T / b.time_constant < 1 := (div_lt_one hτ0).mpr hτ
  have hq0 : 0 < DELTA_T / b.time_constant := div_pos hd hτ0
  set r : ℚ := 1 - DELTA_T / b.time_constant with hr
  have hr0 : 0 < r := by rw [hr]; linarith
  have hr1 : r < 1 := by rw [hr]; linarith
  have hM : (0:ℚ) < MAX_VOLTAGE := by norm_num [MAX_VOLTAGE]
  have hdec : ∀ n : ℕ, r ^ (n+1) < r ^ n := by
    intro n
    have hp : 0 < r ^ n := pow_pos hr0 n
    calc r ^ (n+1) = r ^ n * r := pow_succ r n
    _ < r ^ n * 1 := mul_lt_mul_of_pos_left hr1 hp
    _ = r ^ n := mul_one _
  constructor
  · intro hv hs
    have key : ∀ n, MAX_VOLTAGE - (updateIter b s n).voltage = MAX_VOLTAGE * r ^ n := by
      intro n; rw [charge_closed b s hs n, hv, sub_zero]
    constructor
    · intro n
      have h1 := key n
      have h2 := key (n+1)
      have h3 : MAX_VOLTAGE * r ^ (n+1) < MAX_VOLTAGE * r ^ n :=
        mul_lt_mul_of_pos_left (hdec n) hM
      have h4 : 0 < MAX_VOLTAGE * r ^ n := mul_pos hM (pow_pos hr0 n)
      exact ⟨by linarith, by linarith⟩
    · intro ε hε
      obtain ⟨N, hN⟩ := exists_pow_lt_of_lt_one (div_pos hε hM) hr1
      refine ⟨N, ?_⟩
      have h1 := key N
      have h2 : MAX_VOLTAGE * r ^ N < MAX_VOLTAGE * (ε / MAX_VOLTAGE) :=
        mul_lt_mul_of_pos_left hN hM
      have h3 : MAX_VOLTAGE * (ε / MAX_VOLTAGE) = ε := by
        field_simp
      linarith
  · intro hv hs
    have key : ∀ n, (updateIter b s n).voltage = MAX_VOLTAGE * r ^ n := by
      intro n; rw [discharge_closed b s hs n, hv]
    constructor
    · intro n
      have h1 := key n
      have h2 := key (n+1)
      have h3 : MAX_VOLTAGE * r ^ (n+1) < MAX_VOLTAGE * r ^ n :=
        mul_lt_mul_of_pos_left (hdec n) hM
      have h4 : 0 < MAX_VOLTAGE * r ^ n := mul_pos hM (pow_pos hr0 n)
      exact ⟨by linarith, by linarith⟩
    · intro ε hε
      obtain ⟨N, hN⟩ := exists_pow_lt_of_lt_one (div_pos hε hM) hr1
      refine ⟨N, ?_⟩
      have h1 := key N
      have h2 : MAX_VOLTAGE * r ^ N < MAX_VOLTAGE * (ε / MAX_VOLTAGE) :=
        mul_lt_mul_of_pos_left hN hM
      have h3 : MAX_VOLTAGE * (ε / MAX_VOLTAGE) = ε := by
        field_simp
      linarith

/-- C8 witness: the first charging update of a fresh default block strictly
raises its voltage. -/
theorem charge_discharge_monotone_witness :
    (updateIter blockA 2 0).voltage < (updateIter blockA 2 1).voltage :=
  (((charge_discharge_monotone blockA 2
        (by norm_num [blockA, GeneBlock.init, DELTA_T])).1
      rfl (by norm_num [blockA, GeneBlock.init])).1 0).1

/-! ## Board-level lemmas and theorems -/

lemma dotZ_eq_sum (r s : List ℤ) :
    dotZ r s = ∑ j ∈ Finset.range (min r.length s.length),
      r.getD j 0 * s.getD j 0 := by
  induction r generalizing s with
  | nil => simp [dotZ]
  | cons a r ih =>
    cases s with
    | nil => simp [dotZ]
    | cons b s =>
      simp only [dotZ, List.zipWith_cons_cons, List.sum_cons]
      rw [show (List.zipWith (· * ·) r s).sum = dotZ r s from rfl, ih]
      rw [List.length_cons, List.length_cons, Nat.succ_min_succ,
        Finset.sum_range_succ']
      simp only [List.getD_cons_succ, List.getD_cons_zero]
      ring

/-- C1: `advance()` is the synchronous two-phase step: the `i`-th block of
the advanced board is the pre-step block `i`, its latch resolved by
`is_active()` on pre-step state, updated with the signal
`Σ_j connections[i, j] * state_vector[j]` where the whole state vector is
the activation snapshot of the pre-step blocks. -/
theorem advance_synchronous (bd : Board)
    (hsq : bd.connections.length = bd.blocks.length)
    (hrow : ∀ r ∈ bd.connections, r.length = bd.blocks.length) :
    bd.advance.blocks.length = bd.blocks.length ∧
    ∀ i, i < bd.blocks.length →
      bd.advance.blocks.getD i default =
        ((bd.blocks.getD i default).is_active.1).update
          (((∑ j ∈ Finset.range bd.blocks.length,
              (bd.connections.getD i []).getD j 0 *
                (bd.blocks.getD j default).is_active.2) : ℤ) : ℚ) := by
  have hadv : bd.advance.blocks =
      List.zipWith (fun b s => b.update ((s : ℤ) : ℚ))
        ((bd.blocks.map GeneBlock.is_active).map Prod.fst)
        (matVec bd.connections
          ((bd.blocks.map GeneBlock.is_active).map Prod.snd)) := rfl
  have hlen : bd.advance.blocks.length = bd.blocks.length := by
    rw [hadv, List.length_zipWith]
    simp [matVec, hsq]
  refine ⟨hlen, fun i hi => ?_⟩
  have hic : i < bd.connections.length := by omega
  have hi' : i < bd.advance.blocks.length := by omega
  have hstates : ∀ j, j < bd.blocks.length →
      ((bd.blocks.map GeneBlock.is_active).map Prod.snd).getD j 0 =
        (bd.blocks.getD j default).is_active.2 := by
    intro j hj
    have hj' : j < ((bd.blocks.map GeneBlock.is_active).map Prod.snd).length := by
      simp [hj]
    rw [List.getD_eq_getElem _ _ hj', List.getD_eq_getElem _ _ hj]
    simp [List.getElem_map]
  have hdot : dotZ (bd.connections[i])
      ((bd.blocks.map GeneBlock.is_active).map Prod.snd) =
      ∑ j ∈ Finset.range bd.blocks.length,
        (bd.connections[i]).getD j 0 *
          (bd.blocks.getD j default).is_active.2 := by
    rw [dotZ_eq_sum]
    have h1 : (bd.connections[i]).length = bd.blocks.length :=
      hrow _ (List.getElem_mem hic)
    have h2 : ((bd.blocks.map GeneBlock.is_active).map Prod.snd).length =
        bd.blocks.length := by simp
    rw [h1, h2, min_self]
    exact Finset.sum_congr rfl fun j hj => by
      rw [hstates j (Finset.mem_range.mp hj)]
  rw [List.getD_eq_getElem _ _ hi', List.getD_eq_getElem _ _ hi,
    List.getD_eq_getElem _ _ hic]
  have hL : bd.advance.blocks[i] =
      ((bd.blocks[i]).is_active.1).update
        ((dotZ (bd.connections[i])
            ((bd.blocks.map GeneBlock.is_active).map Prod.snd) : ℤ) : ℚ) := by
    have hmz : i < (matVec bd.connections
        ((bd.blocks.map GeneBlock.is_active).map Prod.snd)).length := by
      simp [matVec, hic]
    have hgz : i < (List.zipWith (fun b s => GeneBlock.update b ((s : ℤ) : ℚ))
        ((bd.blocks.map GeneBlock.is_active).map Prod.fst)
        (matVec bd.connections
          ((bd.blocks.map GeneBlock.is_active).map Prod.snd))).length := by
      rw [List.length_zipWith]
      simp [matVec, hsq, hi]
    have e1 : bd.advance.blocks[i] =
        (List.zipWith (fun b s => GeneBlock.update b ((s : ℤ) : ℚ))
          ((bd.blocks.map GeneBlock.is_active).map Prod.fst)
          (matVec bd.connections
            ((bd.blocks.map GeneBlock.is_active).map Prod.snd)))[i] := by
      congr 1
    rw [e1, List.getElem_zipWith]
    have hz : (matVec bd.connections
        ((bd.blocks.map GeneBlock.is_active).map Prod.snd))[i] =
        dotZ (bd.connections[i])
          ((bd.blocks.map GeneBlock.is_active).map Prod.snd) := by
      simp only [matVec]
      rw [List.getElem_map]
    congr 1
    · simp [List.getElem_map]
    · rw [hz]
  rw [hL, hdot]

/-- C1 witness: the advanced one-block self-connected board has the same
number of blocks it started with. -/
theorem advance_synchronous_witness :
    boardOn.advance.blocks.length = boardOn.blocks.length :=
  (advance_synchronous boardOn rfl (by decide)).1

lemma dictGet?_dictErase (m : List (String × GeneBlock)) (k : String) :
    dictGet? (dictErase m k) k = none := by
  induction m with
  | nil => rfl
  | cons p m ih =>
    by_cases h : p.1 = k
    · have e : dictErase (p :: m) k = dictErase m k := by
        simp [dictErase, h]
      rw [e]; exact ih
    · have e : dictErase (p :: m) k = p :: dictErase m k := by
        simp [dictErase, h]
      have e2 : dictGet? (p :: dictErase m k) k = dictGet? (dictErase m k) k := by
        simp [dictGet?, List.find?_cons, h]
      rw [e, e2]; exact ih

/-- C2 counterexample: removing the labelled block "A" by object empties the
block list and the matrix but leaves the "A" entry in the label map, so the
map then holds an entry for a block that is no longer on the board. -/
theorem remove_block_label_cex :
    boardA.remove_block (BlockOrLabel.block blockA) =
      Except.ok { blocks := [], labelled_blocks := [("A", blockA)],
                  connections := [] } := by
  simp [Board.remove_block, Board.removeResolved, indexOfQ, boardA, Board.init,
    Board.add_block, blockA, GeneBlock.init, GeneBlock.get_label, dictInsert,
    matGrow, matShrink]

/-- C2 (amended): `remove_block` removes the block from `blocks` and deletes
its row and column from `connections` under both identification modes, but
the label-map entry is deleted exactly when the block was identified by its
label; after a removal by label the former label no longer resolves. -/
theorem remove_block_spec (bd : Board) (l : String) (b b' : GeneBlock)
    (idx idx' : ℕ)
    (hres : dictGet? bd.labelled_blocks l = some b)
    (hidx : indexOfQ bd.blocks b = some idx)
    (hidx' : indexOfQ bd.blocks b' = some idx') :
    bd.remove_block (.label l) = Except.ok
      { blocks := bd.blocks.eraseIdx idx,
        labelled_blocks := dictErase bd.labelled_blocks l,
        connections := matShrink bd.connections idx } ∧
    dictGet? (dictErase bd.labelled_blocks l) l = none ∧
    bd.remove_block (.block b') = Except.ok
      { blocks := bd.blocks.eraseIdx idx',
        labelled_blocks := bd.labelled_blocks,
        connections := matShrink bd.connections idx' } := by
  refine ⟨?_, dictGet?_dictErase bd.labelled_blocks l, ?_⟩
  · simp [Board.remove_block, Board.get_block_by_label, hres,
      Board.removeResolved, hidx]
  · simp [Board.remove_block, Board.removeResolved, hidx']

/-- C2 witness: after removing "A" by label from the one-block board the
label no longer resolves. -/
theorem remove_block_spec_witness :
    dictGet? (dictErase boardA.labelled_blocks "A") "A" = none :=
  (remove_block_spec boardA "A" blockA blockA 0 0
    (by simp [boardA, Board.init, Board.add_block, blockA, GeneBlock.init,
      GeneBlock.get_label, dictInsert, dictGet?])
    (by simp [boardA, Board.init, Board.add_block, blockA, GeneBlock.init,
      GeneBlock.get_label, dictInsert, indexOfQ])
    (by simp [boardA, Board.init, Board.add_block, blockA, GeneBlock.init,
      GeneBlock.get_label, dictInsert, indexOfQ])).2.1

/-- C7: resolving an unknown label — via board lookup, via
`add_connection` / `remove_connection` endpoint resolution, or via
`remove_block` by label — raises a lookup error whose message names the
label; a connection operation naming a block object that is not on the board
raises a lookup error; and in every such failing case the board state is
left unchanged (the error carries the board exactly as it was). -/
theorem lookup_error_spec (bd : Board) (l : String) (v : ℤ)
    (x src tgt : BlockOrLabel) (sb tb b : GeneBlock)
    (hl : dictGet? bd.labelled_blocks l = none)
    (hsrc : Board.resolveEndpoint bd src = Except.ok sb)
    (htgt : Board.resolveEndpoint bd tgt = Except.ok tb)
    (hb : indexOfQ bd.blocks b = none) :
    bd.get_block_by_label l =
      Except.error ("Could not locate block with label " ++ l ++ ".") ∧
    bd.remove_block (.label l) =
      Except.error ("Could not locate block with label " ++ l ++ ".", bd) ∧
    bd.add_connection (.label l) x v =
      Except.error ("Could not locate block with label " ++ l ++ ".", bd) ∧
    bd.add_connection src (.label l) v =
      Except.error ("Could not locate block with label " ++ l ++ ".", bd) ∧
    bd.remove_connection (.label l) x =
      Except.error ("Could not locate block with label " ++ l ++ ".", bd) ∧
    bd.add_connection (.block b) tgt v =
      Except.error ("block is not in list", bd) := by
  have herr : bd.get_block_by_label l =
      Except.error ("Could not locate block with label " ++ l ++ ".") := by
    simp [Board.get_block_by_label, hl]
  have hresl : Board.resolveEndpoint bd (.label l) =
      Except.error ("Could not locate block with label " ++ l ++ ".") := by
    simp [Board.resolveEndpoint, herr]
  have hresb : Board.resolveEndpoint bd (.block b) = Except.ok b := rfl
  refine ⟨herr, ?_, ?_, ?_, ?_, ?_⟩
  · simp [Board.remove_block, herr]
  · simp only [Board.add_connection, hresl]
  · simp only [Board.add_connection, hsrc, hresl]
  · simp only [Board.remove_connection, Board.add_connection, hresl]
  · simp only [Board.add_connection, hresb, htgt, hb]

/-- C7 witness: looking up the unknown label "Z" on the one-block board
fails with the lookup error naming "Z". -/
theorem lookup_error_spec_witness :
    boardA.get_block_by_label "Z" =
      Except.error ("Could not locate block with label Z.") :=
  (lookup_error_spec boardA "Z" 1 (.label "Z") (.block blockA) (.label "A")
    blockA blockA blockB
    (by simp [boardA, Board.init, Board.add_block, blockA, GeneBlock.init,
      GeneBlock.get_label, dictInsert, dictGet?])
    rfl
    (by simp [Board.resolveEndpoint, Board.get_block_by_label, boardA,
      Board.init, Board.add_block, blockA, GeneBlock.init,
      GeneBlock.get_label, dictInsert, dictGet?])
    (by simp [boardA, Board.init, Board.add_block, blockA, blockB,
      GeneBlock.init, GeneBlock.get_label, dictInsert, indexOfQ])).1

lemma indexOfQ_lt_length (l : List GeneBlock) (b : GeneBlock) :
    ∀ i, indexOfQ l b = some i → i < l.length := by
  induction l with
  | nil => intro i h; simp [indexOfQ] at h
  | cons x xs ih =>
    intro i h
    simp only [indexOfQ] at h
    split_ifs at h with hx
    · simp only [Option.some.injEq] at h
      simp [← h]
    · obtain ⟨j, hj, hji⟩ := Option.map_eq_some'.mp h
      have := ih j hj
      simp only [List.length_cons]
      omega

lemma getD_replicate_zero (m j : ℕ) : (List.replicate m (0:ℤ)).getD j 0 = 0 := by
  by_cases h : j < m
  · rw [List.getD_eq_getElem _ _ (by simp [h]), List.getElem_replicate]
  · rw [List.getD_eq_default _ _ (by simp; omega)]

lemma getD_eraseIdx {α : Type*} (l : List α) (idx i : ℕ) (d : α)
    (hidx : idx < l.length) (hi : i < l.length - 1) :
    (l.eraseIdx idx).getD i d = l.getD (if i < idx then i else i + 1) d := by
  have hlen : (l.eraseIdx idx).length = l.length - 1 := by
    rw [List.length_eraseIdx, if_pos hidx]
  have hi' : i < (l.eraseIdx idx).length := by omega
  rw [List.getD_eq_getElem _ _ hi']
  split_ifs with hcase
  · rw [List.getElem_eraseIdx_of_lt l idx i hi' hcase,
      List.getD_eq_getElem _ _ (by omega : i < l.length)]
  · rw [List.getElem_eraseIdx_of_ge l idx i hi' (by omega),
      List.getD_eq_getElem _ _ (by omega : i + 1 < l.length)]

lemma isSquare_add_block (bd : Board) (b : GeneBlock) (h : isSquare bd) :
    isSquare (bd.add_block b) := by
  obtain ⟨h1, h2⟩ := h
  constructor
  · simp [Board.add_block, matGrow, h1]
  · intro r hr
    simp only [Board.add_block, matGrow, List.mem_append, List.mem_map,
      List.mem_singleton] at hr
    rcases hr with ⟨row, hrow, rfl⟩ | rfl
    · simp [Board.add_block, h2 row hrow]
    · simp [Board.add_block, h1]

lemma isSquare_shrink (bd : Board) (idx : ℕ) (h : isSquare bd)
    (hidx : idx < bd.blocks.length) :
    isSquare { bd with blocks := bd.blocks.eraseIdx idx,
                       connections := matShrink bd.connections idx } := by
  obtain ⟨h1, h2⟩ := h
  have hidxc : idx < bd.connections.length := by omega
  constructor
  · show (matShrink bd.connections idx).length = (bd.blocks.eraseIdx idx).length
    simp [matShrink, List.length_eraseIdx, hidxc, hidx, h1]
  · intro r hr
    simp only [matShrink, List.mem_map] at hr
    obtain ⟨row, hrow, rfl⟩ := hr
    have hrl : row.length = bd.blocks.length :=
      h2 row (List.mem_of_mem_eraseIdx hrow)
    show (row.eraseIdx idx).length = (bd.blocks.eraseIdx idx).length
    rw [List.length_eraseIdx, List.length_eraseIdx]
    simp [hrl, hidx]

lemma removeResolved_ok_square (bd : Board) (b : GeneBlock) (bd' : Board)
    (h : isSquare bd) (hok : Board.removeResolved bd b = Except.ok bd') :
    isSquare bd' := by
  cases hidx : indexOfQ bd.blocks b with
  | none => simp [Board.removeResolved, hidx] at hok
  | some idx =>
    simp only [Board.removeResolved, hidx, Except.ok.injEq] at hok
    rw [← hok]
    exact isSquare_shrink bd idx h (indexOfQ_lt_length _ _ _ hidx)

lemma remove_block_ok_square (bd : Board) (x : BlockOrLabel) (bd' : Board)
    (h : isSquare bd) (hok : bd.remove_block x = Except.ok bd') :
    isSquare bd' := by
  cases x with
  | block b => exact removeResolved_ok_square bd b bd' h hok
  | label l =>
    simp only [Board.remove_block] at hok
    cases hres : bd.get_block_by_label l with
    | error e => rw [hres] at hok; simp at hok
    | ok blk =>
      rw [hres] at hok
      exact removeResolved_ok_square
        { bd with labelled_blocks := dictErase bd.labelled_blocks l } blk bd' h hok

lemma runOps_square : ∀ (ops : List BoardOp) (bd : Board), isSquare bd →
    ∀ bd', runOps bd ops = some bd' → isSquare bd'
  | [], bd, h, bd', hrun => by
    simp only [runOps, Option.some.injEq] at hrun
    rwa [← hrun]
  | (BoardOp.add b) :: ops, bd, h, bd', hrun => by
    simp only [runOps] at hrun
    exact runOps_square ops _ (isSquare_add_block bd b h) bd' hrun
  | (BoardOp.remove x) :: ops, bd, h, bd', hrun => by
    simp only [runOps] at hrun
    cases hrem : bd.remove_block x with
    | error e => rw [hrem] at hrun; simp at hrun
    | ok bd1 =>
      rw [hrem] at hrun
      exact runOps_square ops bd1 (remove_block_ok_square bd x bd1 h hrem) bd' hrun

lemma entry_matGrow_old (cm : List (List ℤ)) (n : ℕ) (hsq : cm.length = n)
    (hrow : ∀ r ∈ cm, r.length = n) (i j : ℕ) (hi : i < n) (hj : j < n) :
    entry (matGrow cm) i j = entry cm i j := by
  unfold entry matGrow
  have hi' : i < (cm.map fun row => row ++ [0]).length := by
    simp only [List.length_map]; omega
  rw [List.getD_append _ _ _ _ hi', List.getD_eq_getElem _ _ hi',
    List.getElem_map]
  have hic : i < cm.length := by omega
  have hjr : j < cm[i].length := by
    rw [hrow _ (List.getElem_mem hic)]; omega
  rw [List.getD_eq_getElem cm [] hic, List.getD_append _ _ _ _ hjr]

lemma entry_matGrow_bottom (cm : List (List ℤ)) (n : ℕ) (hsq : cm.length = n)
    (j : ℕ) : entry (matGrow cm) n j = 0 := by
  unfold entry matGrow
  have hlen : (cm.map fun row => row ++ [0]).length = n := by
    simp only [List.length_map]; omega
  have e1 : ((cm.map fun row => row ++ [0]) ++
      [List.replicate (cm.length + 1) 0]).getD n [] =
      List.replicate (cm.length + 1) 0 := by
    rw [List.getD_append_right _ _ _ _ (by omega)]
    simp [hlen]
  rw [e1, getD_replicate_zero]

lemma entry_matGrow_right (cm : List (List ℤ)) (n : ℕ) (hsq : cm.length = n)
    (hrow : ∀ r ∈ cm, r.length = n) (j : ℕ) (hj : j < n) :
    entry (matGrow cm) j n = 0 := by
  unfold entry matGrow
  have hj' : j < (cm.map fun row => row ++ [0]).length := by
    simp only [List.length_map]; omega
  rw [List.getD_append _ _ _ _ hj', List.getD_eq_getElem _ _ hj',
    List.getElem_map]
  have hjc : j < cm.length := by omega
  have hrl : cm[j].length = n := hrow _ (List.getElem_mem hjc)
  rw [List.getD_append_right _ _ _ _ (by omega)]
  simp [hrl]

lemma entry_matShrink (cm : List (List ℤ)) (n idx : ℕ) (hsq : cm.length = n)
    (hrow : ∀ r ∈ cm, r.length = n) (hidx : idx < n) (i j : ℕ)
    (hi : i < n - 1) (hj : j < n - 1) :
    entry (matShrink cm idx) i j =
      entry cm (if i < idx then i else i + 1) (if j < idx then j else j + 1) := by
  unfold entry matShrink
  have hce : (cm.eraseIdx idx).length = n - 1 := by
    rw [List.length_eraseIdx, if_pos (by omega)]; omega
  have hi' : i < ((cm.eraseIdx idx).map fun row => row.eraseIdx idx).length := by
    simp only [List.length_map]; omega
  have hie : i < (cm.eraseIdx idx).length := by omega
  rw [List.getD_eq_getElem _ _ hi', List.getElem_map]
  have hrowEq : (cm.eraseIdx idx)[i] =
      cm.getD (if i < idx then i else i + 1) [] := by
    split_ifs with hcase
    · rw [List.getElem_eraseIdx_of_lt cm idx i hie hcase,
        List.getD_eq_getElem _ _ (by omega : i < cm.length)]
    · rw [List.getElem_eraseIdx_of_ge cm idx i hie (by omega),
        List.getD_eq_getElem _ _ (by omega : i + 1 < cm.length)]
  rw [hrowEq]
  have hmem : cm.getD (if i < idx then i else i + 1) [] ∈ cm := by
    split_ifs with hcase
    · rw [List.getD_eq_getElem _ _ (by omega : i < cm.length)]
      exact List.getElem_mem _
    · rw [List.getD_eq_getElem _ _ (by omega : i + 1 < cm.length)]
      exact List.getElem_mem _
  have hrl : (cm.getD (if i < idx then i else i + 1) []).length = n := hrow _ hmem
  rw [getD_eraseIdx _ idx j 0 (by rw [hrl]; omega) (by rw [hrl]; omega)]

/-- C6: for every sequence of `add_block` / `remove_block` calls from the
empty board the connection matrix stays square with dimension equal to the
block count; `add_block` grows it by one zero-filled row and column
preserving all existing entries; `remove_block` deletes exactly the removed
block's row and column, preserving every other entry at shifted indices. -/
theorem matrix_resize_invariant :
    (∀ (ops : List BoardOp) (bd' : Board),
      runOps Board.init ops = some bd' → isSquare bd') ∧
    (∀ (bd : Board) (b : GeneBlock), isSquare bd →
      isSquare (bd.add_block b) ∧
      (∀ i j, i < bd.blocks.length → j < bd.blocks.length →
        entry (bd.add_block b).connections i j = entry bd.connections i j) ∧
      (∀ j, j ≤ bd.blocks.length →
        entry (bd.add_block b).connections bd.blocks.length j = 0 ∧
        entry (bd.add_block b).connections j bd.blocks.length = 0)) ∧
    (∀ (bd : Board) (x : BlockOrLabel) (b : GeneBlock) (idx : ℕ) (bd' : Board),
      isSquare bd → resolvesTo bd x b → indexOfQ bd.blocks b = some idx →
      bd.remove_block x = Except.ok bd' →
      isSquare bd' ∧ bd'.blocks = bd.blocks.eraseIdx idx ∧
      (∀ i j, i < bd.blocks.length - 1 → j < bd.blocks.length - 1 →
        entry bd'.connections i j =
          entry bd.connections (if i < idx then i else i + 1)
            (if j < idx then j else j + 1))) := by
  refine ⟨fun ops bd' hrun =>
      runOps_square ops Board.init ⟨rfl, by simp [Board.init]⟩ bd' hrun,
    fun bd b h => ?_, fun bd x b idx bd' h hres hidx hok => ?_⟩
  · obtain ⟨h1, h2⟩ := h
    refine ⟨isSquare_add_block bd b ⟨h1, h2⟩, fun i j hi hj =>
      entry_matGrow_old bd.connections bd.blocks.length h1 h2 i j hi hj,
      fun j hj => ⟨entry_matGrow_bottom bd.connections bd.blocks.length h1 j, ?_⟩⟩
    by_cases hjn : j < bd.blocks.length
    · exact entry_matGrow_right bd.connections bd.blocks.length h1 h2 j hjn
    · have hj' : j = bd.blocks.length := by omega
      rw [hj']
      exact entry_matGrow_bottom bd.connections bd.blocks.length h1
        bd.blocks.length
  · have hidxlt : idx < bd.blocks.length := indexOfQ_lt_length _ _ _ hidx
    have hbd' : bd'.blocks = bd.blocks.eraseIdx idx ∧
        bd'.connections = matShrink bd.connections idx := by
      cases x with
      | block b' =>
        have hbb : b' = b := hres
        subst hbb
        simp only [Board.remove_block, Board.removeResolved, hidx,
          Except.ok.injEq] at hok
        rw [← hok]
        exact ⟨rfl, rfl⟩
      | label l =>
        have hres' : dictGet? bd.labelled_blocks l = some b := hres
        simp only [Board.remove_block, Board.get_block_by_label, hres',
          Board.removeResolved, hidx, Except.ok.injEq] at hok
        rw [← hok]
        exact ⟨rfl, rfl⟩
    obtain ⟨hblocks, hconn⟩ := hbd'
    obtain ⟨h1, h2⟩ := h
    refine ⟨?_, hblocks, fun i j hi hj => ?_⟩
    · constructor
      · rw [hblocks, hconn]
        show (matShrink bd.connections idx).length = (bd.blocks.eraseIdx idx).length
        simp [matShrink, List.length_eraseIdx, (by omega : idx < bd.connections.length),
          hidxlt, h1]
      · intro r hr
        rw [hconn] at hr
        simp only [matShrink, List.mem_map] at hr
        obtain ⟨row, hrowm, rfl⟩ := hr
        have hrl : row.length = bd.blocks.length :=
          h2 row (List.mem_of_mem_eraseIdx hrowm)
        rw [hblocks]
        show (row.eraseIdx idx).length = (bd.blocks.eraseIdx idx).length
        rw [List.length_eraseIdx, List.length_eraseIdx]
        simp [hrl, hidxlt]
    · rw [hconn]
      exact entry_matShrink bd.connections bd.blocks.length idx h1 h2 hidxlt i j hi hj

/-- C6 witness: the one-block board built by `add_block` on the empty board
has a square 1 × 1 connection matrix. -/
theorem matrix_resize_invariant_witness :
    isSquare (Board.init.add_block blockA) :=
  (matrix_resize_invariant.2.1 Board.init blockA
    ⟨rfl, by simp [Board.init]⟩).1
